import Mathlib

/-
Verification of the KPIECE1 control planner core (KPIECE1.cpp) against its
specification.  The C++ code is shallowly embedded: states and controls are
abstract integer handles, doubles become rationals, the logarithm and the
projection evaluator are abstract function parameters, and the random draws
consumed by one iteration of `solve` are supplied as an explicit oracle.
-/

namespace KPIECE

/-- Integer projection coordinates (`Grid::Coord`). -/
abbrev Coord := List Int

/-- A node of the search tree (`KPIECE1::Motion`): a state handle, the control
handle that produced it (`none` models the null control of seed motions),
its step count and the parent back-reference. -/
inductive Motion where
  | mk (state : Nat) (control : Option Nat) (steps : Nat) (parent : Option Motion)

def Motion.state : Motion → Nat
  | .mk s _ _ _ => s

def Motion.control : Motion → Option Nat
  | .mk _ c _ _ => c

def Motion.steps : Motion → Nat
  | .mk _ _ n _ => n

def Motion.parent : Motion → Option Motion
  | .mk _ _ _ p => p

/-- Per-cell aggregate data (`KPIECE1::CellData`). -/
structure CellData where
  motions : List Motion
  coverage : Nat
  iteration : Nat
  selections : Nat
  score : ℚ

/-- A grid cell.  Modelled from the spec: the Grid implementation is not part
of the given sources; a cell carries its coordinate and a `border` flag that
assigns it to the exterior (`true`) or interior (`false`) partition. -/
structure Cell where
  coord : Coord
  border : Bool
  data : CellData

/-- The tree of motions (`KPIECE1::TreeData`): the grid of cells, the total
motion count and the iteration counter. -/
structure Tree where
  grid : List Cell
  size : Nat
  iteration : Nat

/-- One entry of the close-samples set (`KPIECE1::CloseSample`): the cell
(identified by its coordinate), the motion, and its distance to the goal. -/
structure CloseSample where
  cell : Coord
  motion : Motion
  distance : ℚ

def dummySample : CloseSample :=
  ⟨[], .mk 0 none 0 none, 0⟩

/-- The bounded set of samples closest to the goal (`KPIECE1::CloseSamples`).
Modelled from the spec: the underlying ordered set (declared in the missing
header) keeps its entries sorted by distance ascending with a stable
tiebreak; we represent it as a sorted list. -/
structure CloseSamples where
  maxSize : Nat
  samples : List CloseSample

/-- Modelled from the spec: insertion into the distance-ordered set, placing
an entry after all entries of strictly smaller or equal distance. -/
def insertSample (s : CloseSample) : List CloseSample → List CloseSample
  | [] => [s]
  | x :: xs => if s.distance < x.distance then s :: x :: xs else x :: insertSample s xs

/-- `CloseSamples::consider`: accept the triple when the set is empty or the
distance beats the worst stored distance, evicting the worst entry when the
set is full. -/
def CloseSamples.consider (cs : CloseSamples) (cell : Coord) (m : Motion) (distance : ℚ) :
    Bool × CloseSamples :=
  if cs.samples.isEmpty then
    (true, { cs with samples := insertSample ⟨cell, m, distance⟩ cs.samples })
  else if distance < (cs.samples.getLastD dummySample).distance then
    let base := if cs.maxSize ≤ cs.samples.length then cs.samples.dropLast else cs.samples
    (true, { cs with samples := insertSample ⟨cell, m, distance⟩ base })
  else
    (false, cs)

/-- `CloseSamples::canSample`. -/
def CloseSamples.canSample (cs : CloseSamples) : Bool :=
  !cs.samples.isEmpty

/-- `CloseSamples::selectMotion`: pop the best entry and re-insert it through
`consider` with distance `0.55 * (best + worst)`. -/
def CloseSamples.selectMotion (cs : CloseSamples) : Option (Motion × Coord) × CloseSamples :=
  match cs.samples with
  | [] => (none, cs)
  | best :: rest =>
    let worst := (best :: rest).getLastD dummySample
    let d := (best.distance + worst.distance) * (11 / 20)
    let cs1 : CloseSamples := { cs with samples := rest }
    (some (best.motion, best.cell), (cs1.consider best.cell best.motion d).2)

/-- The scan of `KPIECE1::findNextMotion`, beginning at position `i`. -/
def findNextFrom (coords : List Coord) (index count : Nat) : Nat → Nat
  | i =>
    if h : i < count then
      if coords.getD i [] ≠ coords.getD index [] then i - 1
      else findNextFrom coords index count (i + 1)
    else count - 1
termination_by i => count - i
decreasing_by omega

/-- `KPIECE1::findNextMotion`: the last position that still shares the
coordinate at `index`, or `count - 1` when no later coordinate differs. -/
def findNextMotion (coords : List Coord) (index count : Nat) : Nat :=
  findNextFrom coords index count (index + 1)

/-- `Grid::getCell`: exact coordinate lookup. -/
def getCell (g : List Cell) (k : Coord) : Option Cell :=
  g.find? (fun c => decide (c.coord = k))

/-- Apply `f` to the data of the (first) cell with coordinate `k`; the C++
code mutates that cell through a pointer. -/
def updCell : List Cell → Coord → (CellData → CellData) → List Cell
  | [], _, _ => []
  | c :: rest, k, f =>
    if c.coord = k then { c with data := f c.data } :: rest
    else c :: updCell rest k f

/-- `KPIECE1::addMotion`: project the motion's state, then either append the
motion to the existing cell (growing its coverage) or create a fresh cell
with the score formula `(1 + ln(iteration)) / (1e-3 + dist)`.  The tree size
grows by one either way.  `lg` abstracts the real logarithm and `proj` the
projection evaluator; the returned coordinate identifies the cell. -/
def addMotion (lg : Nat → ℚ) (proj : Nat → Coord) (tr : Tree) (m : Motion) (dist : ℚ) :
    Tree × Coord :=
  let coord := proj m.state
  match getCell tr.grid coord with
  | some _ =>
    ({ tr with
        grid := updCell tr.grid coord
          (fun d => { d with motions := d.motions ++ [m], coverage := d.coverage + m.steps }),
        size := tr.size + 1 }, coord)
  | none =>
    ({ tr with
        grid := tr.grid ++ [{ coord := coord, border := true, data :=
          { motions := [m], coverage := m.steps, iteration := tr.iteration, selections := 1,
            score := (1 + lg tr.iteration) / (1 / 1000 + dist) } }],
        size := tr.size + 1 }, coord)

/-- Fraction of exterior cells (`GridB::fracExternal`).  Modelled from the
spec: number of exterior cells divided by the total number of cells. -/
def fracExternal (tr : Tree) : ℚ :=
  let t := tr.grid.length
  if t = 0 then 0 else ((tr.grid.filter (fun c => c.border)).length : ℚ) / (t : ℚ)

/-- Modelled from the spec: `topExternal` / `topInternal` return the cell of
highest importance in a partition, or none when the partition is empty.  The
importance function `imp` abstracts the `computeImportance` hook. -/
def topOf (imp : CellData → ℚ) : List Cell → Option Cell
  | [] => none
  | c :: rest => some (rest.foldl (fun b x => if imp b.data < imp x.data then x else b) c)

/-- The cell chosen at the top of `KPIECE1::selectMotion`: the exterior top
when the draw `u` falls below `max(selectBorderFraction, fracExternal)`,
the interior top otherwise. -/
def chosenTop (imp : CellData → ℚ) (sbf u : ℚ) (tr : Tree) : Option Cell :=
  if u < max sbf (fracExternal tr) then topOf imp (tr.grid.filter (fun c => c.border))
  else topOf imp (tr.grid.filter (fun c => !c.border))

/-- The additive numerical rescue applied to one cell's data:
`score += 1 + ln(iteration)`. -/
def rescueCell (lg : Nat → ℚ) (d : CellData) : CellData :=
  { d with score := d.score + (1 + lg d.iteration) }

/-- Outcome of `KPIECE1::selectMotion`.  `nullDeref` marks the execution that
reads `scell->data->score` while `scell` is null. -/
inductive SelOut where
  | nullDeref
  | noMotion
  | picked (m : Motion) (ecoord : Coord)

/-- Result of `KPIECE1::selectMotion`: the outcome, the tree after the call,
and whether `updateAll` was invoked by the numerical rescue. -/
structure SelRes where
  out : SelOut
  tr : Tree
  updateAllCalled : Bool

/-- The tail of `KPIECE1::selectMotion` after the rescue check: fail when the
chosen cell has no motions, otherwise increment its selections and pick the
motion at the half-normal index `hn 0 (size - 1)`. -/
def kpSelectTail (hn : Nat → Nat → Nat) (tr : Tree) (c : Cell) (upd : Bool) : SelRes :=
  if c.data.motions.isEmpty then ⟨.noMotion, tr, upd⟩
  else
    let k := hn 0 (c.data.motions.length - 1)
    ⟨.picked (c.data.motions.getD k (.mk 0 none 0 none)) c.coord,
     { tr with grid := updCell tr.grid c.coord (fun d => { d with selections := d.selections + 1 }) },
     upd⟩

/-- `KPIECE1::selectMotion`: choose the top cell of a partition, read its
score for the `score < ε` rescue test before any null check (the source
dereferences `scell->data` at this point), apply the additive rescue and
`updateAll` when the test fires, then select a motion from the cell. -/
def kpSelect (imp : CellData → ℚ) (lg : Nat → ℚ) (eps sbf u : ℚ) (hn : Nat → Nat → Nat)
    (tr : Tree) : SelRes :=
  match chosenTop imp sbf u tr with
  | none => ⟨.nullDeref, tr, false⟩
  | some c0 =>
    if c0.data.score < eps then
      kpSelectTail hn
        { tr with grid := tr.grid.map (fun c => { c with data := rescueCell lg c.data }) }
        { c0 with data := rescueCell lg c0.data } true
    else kpSelectTail hn tr c0 false

/-- The fixed planner parameters and external collaborators of one `solve`
call.  `lg` abstracts the real logarithm, `proj` the projection evaluator,
`goalSat` and `goalDist` the goal region, `imp` the importance hook. -/
structure Ctx where
  imp : CellData → ℚ
  lg : Nat → ℚ
  proj : Nat → Coord
  goalSat : Nat → Bool
  goalDist : Nat → ℚ
  minDur : Nat
  goodScoreFactor : ℚ
  badScoreFactor : ℚ
  selectBorderFraction : ℚ
  goalBias : ℚ
  eps : ℚ

/-- Mutable per-`solve` state threaded through the iterations: the tree, the
close-samples set, the exact solution if found, and the best approximate
solution (`approxdif = none` models the initial infinite distance). -/
structure SolveSt where
  tr : Tree
  cs : CloseSamples
  solution : Option Motion
  approxdif : Option ℚ
  approxsol : Option Motion

/-- Comparison of a distance against the running best, where `none` stands
for the initial `+infinity`. -/
def ltApprox (d : ℚ) : Option ℚ → Bool
  | none => true
  | some a => decide (d < a)

/-- Accumulator of the motion-splitting loop in `KPIECE1::solve`.  The
`children` field is instrumentation only: it records the motions created by
this split, in creation order. -/
structure SplitSt where
  tr : Tree
  cs : CloseSamples
  existing : Motion
  solution : Option Motion
  approxdif : Option ℚ
  approxsol : Option Motion
  children : List Motion

/-- The motion-splitting loop of `KPIECE1::solve` (`while (index < cd)`):
cut the propagated trajectory at cell boundaries found by `findNextMotion`,
create one motion per segment with the previous endpoint as parent, insert
it with `addMotion`, test the goal (stopping on success), track the best
approximate solution and feed the new motion to the close samples.  The
fuel argument only bounds the recursion; `index` grows by at least one per
step, so fuel `cd` is never exhausted. -/
def splitStep (ctx : Ctx) (rctrl : Nat) (coords : List Coord) (states : List Nat) (cd : Nat) :
    Nat → Nat → SplitSt → SplitSt
  | 0, _, st => st
  | fuel + 1, index, st =>
    if index < cd then
      let nextIndex := findNextMotion coords index cd
      let m : Motion := .mk (states.getD nextIndex 0) (some rctrl) (nextIndex - index + 1)
        (some st.existing)
      let dist := ctx.goalDist m.state
      let solved := ctx.goalSat m.state
      let res := addMotion ctx.lg ctx.proj st.tr m dist
      if solved then
        { st with tr := res.1, solution := some m, approxdif := some dist,
                  children := st.children ++ [m] }
      else
        splitStep ctx rctrl coords states cd fuel (nextIndex + 1)
          ⟨res.1, (st.cs.consider res.2 m dist).2, m, st.solution,
           (if ltApprox dist st.approxdif then some dist else st.approxdif),
           (if ltApprox dist st.approxdif then some m else st.approxsol),
           st.children ++ [m]⟩
    else st

/-- Instrumentation of one iteration of the main loop: which score factor was
applied to the source cell, whether `grid.update(ecell)` ran, whether the
iteration broke out of the loop with a solution, and the denominator of the
`avgCov_two_thirds` division when that division was evaluated. -/
structure IterEvents where
  goodApplied : Bool
  badApplied : Bool
  updatedEcell : Bool
  brokeOut : Bool
  avgDenom : Option Nat

/-- Multiply the score of the cell at `k` by `f` (`ecell->data->score *= f`). -/
def applyFactor (tr : Tree) (k : Coord) (f : ℚ) : Tree :=
  { tr with grid := updCell tr.grid k (fun d => { d with score := d.score * f }) }

/-- The interestingness scan of `KPIECE1::solve`: a trajectory is interesting
when some projected coordinate has no cell yet or hits a cell holding at
most `avg` motions. -/
def interestingOf (tr : Tree) (coords : List Coord) (avg : Nat) : Bool :=
  coords.foldl
    (fun b k =>
      match getCell tr.grid k with
      | none => true
      | some c => b || decide (c.data.motions.length ≤ avg))
    false

/-- The part of a `solve` iteration after propagation returned `cd` valid
steps: when `cd ≥ minDur`, compute `avgCov_two_thirds` by integer division,
split the trajectory when it is interesting or the 5% fallback fires, break
out of the loop when the split found a solution, and otherwise multiply the
source cell's score by the good factor; when `cd < minDur` multiply by the
bad factor; `grid.update(ecell)` runs in both non-breaking cases. -/
def iterTail (ctx : Ctx) (rctrl cd : Nat) (uFall : ℚ) (states : List Nat)
    (ecell : Coord) (existing : Motion) (s : SolveSt) : SolveSt × IterEvents :=
  if ctx.minDur ≤ cd then
    let avgCov := (2 * s.tr.size) / (3 * s.tr.grid.length)
    let den := some (3 * s.tr.grid.length)
    let coords := (List.range cd).map (fun i => ctx.proj (states.getD i 0))
    if interestingOf s.tr coords avgCov || decide (uFall < 1 / 20) then
      let sp := splitStep ctx rctrl coords states cd cd 0
        ⟨s.tr, s.cs, existing, none, s.approxdif, s.approxsol, []⟩
      if sp.solution.isSome then
        (⟨sp.tr, sp.cs, sp.solution, sp.approxdif, sp.approxsol⟩,
         ⟨false, false, false, true, den⟩)
      else
        (⟨applyFactor sp.tr ecell ctx.goodScoreFactor, sp.cs, s.solution, sp.approxdif,
          sp.approxsol⟩,
         ⟨true, false, true, false, den⟩)
    else
      (⟨applyFactor s.tr ecell ctx.goodScoreFactor, s.cs, s.solution, s.approxdif, s.approxsol⟩,
       ⟨true, false, true, false, den⟩)
  else
    (⟨applyFactor s.tr ecell ctx.badScoreFactor, s.cs, s.solution, s.approxdif, s.approxsol⟩,
     ⟨false, true, true, false, none⟩)

/-- The random draws and external results consumed by one iteration of the
main loop: the goal-bias draw, the partition draw, the half-normal sampler,
the sampled control handle, the number of valid propagation steps returned
by `propagateWhileValid`, the propagated trajectory, and the 5% fallback
draw. -/
structure Oracle where
  uGoal : ℚ
  uSel : ℚ
  hn : Nat → Nat → Nat
  rctrl : Nat
  cd : Nat
  states : List Nat
  uFall : ℚ

/-- The cell-selection phase of an iteration; `none` models the executions
the source cannot continue from (the null dereference inside `selectMotion`,
or `assert(existing)` firing after a failed selection). -/
def cellSelectPhase (ctx : Ctx) (o : Oracle) (tr : Tree) : Option (Motion × Coord × Tree) :=
  match kpSelect ctx.imp ctx.lg ctx.eps ctx.selectBorderFraction o.uSel o.hn tr with
  | ⟨.picked m k, tr1, _⟩ => some (m, k, tr1)
  | _ => none

/-- One full iteration of the main loop of `KPIECE1::solve`: increment the
tree iteration, select a motion to expand (through the close samples with
probability `goalBias` when they are non-empty, otherwise through cell
selection), then run the post-propagation tail. -/
def iterate (ctx : Ctx) (o : Oracle) (s : SolveSt) : Option (SolveSt × IterEvents) :=
  let tr0 : Tree := { s.tr with iteration := s.tr.iteration + 1 }
  let sel : Option (Motion × Coord × SolveSt) :=
    if s.cs.canSample && decide (o.uGoal < ctx.goalBias) then
      match s.cs.selectMotion with
      | (some (m, k), cs1) => some (m, k, { s with tr := tr0, cs := cs1 })
      | (none, cs1) =>
        (cellSelectPhase ctx o tr0).map (fun r => (r.1, r.2.1, { s with tr := r.2.2, cs := cs1 }))
    else
      (cellSelectPhase ctx o tr0).map (fun r => (r.1, r.2.1, { s with tr := r.2.2 }))
  match sel with
  | none => none
  | some (m, k, s1) => some (iterTail ctx o.rctrl o.cd o.uFall o.states k m s1)

/-- Run the main loop for a list of per-iteration oracles, stopping early
when a solution has been recorded (the `break` on solution). -/
def runIters (ctx : Ctx) : List Oracle → SolveSt → Option SolveSt
  | [], s => some s
  | o :: rest, s =>
    if s.solution.isSome then some s
    else
      match iterate ctx o s with
      | none => none
      | some r => runIters ctx rest r.1

/-- A seed motion: a copied start state, the null control, no parent. -/
def seedMotion (st : Nat) : Motion :=
  .mk st none 0 none

/-- The tree before seeding: empty grid, size 0, iteration 1. -/
def emptyTree : Tree :=
  ⟨[], 0, 1⟩

/-- The seeding loop of `KPIECE1::solve`: insert one seed motion per valid
start state through `addMotion` with `dist = 1.0`. -/
def seed (lg : Nat → ℚ) (proj : Nat → Coord) (starts : List Nat) : Tree :=
  starts.foldl (fun tr st => (addMotion lg proj tr (seedMotion st) 1).1) emptyTree

/-- The entry of `KPIECE1::solve`: seed the tree, and fail with the logged
error when the grid is still empty afterwards. -/
def solveStart (lg : Nat → ℚ) (proj : Nat → Coord) (starts : List Nat) : Except String Tree :=
  let tr := seed lg proj starts
  if tr.grid.length = 0 then .error "There are no valid initial states!"
  else .ok tr

/-- The starting `SolveSt` of the main loop for a seeded tree. -/
def initSolveSt (tr : Tree) (nClose : Nat) : SolveSt :=
  ⟨tr, ⟨nClose, []⟩, none, none, none⟩

/-- The machine epsilon of IEEE double precision, `DBL_EPSILON = 2^-52`,
used by `setup` and by the numerical-rescue test. -/
def dblEps : ℚ :=
  1 / 2 ^ 52

/-- The parameter validation of `KPIECE1::setup`: each of the three factors
is rejected when it is below the machine epsilon or above one. -/
def setupCheck (bad good sbf : ℚ) : Except String Unit :=
  if bad < dblEps ∨ 1 < bad then
    .error "Bad cell score factor must be in the range (0,1]"
  else if good < dblEps ∨ 1 < good then
    .error "Good cell score factor must be in the range (0,1]"
  else if sbf < dblEps ∨ 1 < sbf then
    .error "The fraction of time spent selecting border cells must be in the range (0,1]"
  else
    .ok ()

/-- Distances ascending along the close-samples list. -/
def sortedByDist (l : List CloseSample) : Prop :=
  List.Chain' (fun a b => a.distance ≤ b.distance) l

/-- Sum of motion counts over the cells of a grid. -/
def sumMotions (g : List Cell) : Nat :=
  (g.map (fun c => c.data.motions.length)).sum

/-- A cell's coverage equals the sum of the steps of its motions. -/
def dataCovOk (d : CellData) : Prop :=
  d.coverage = (d.motions.map Motion.steps).sum

/-- The tree invariant of the spec: the motion counts of all cells sum to
`tree.size`, and every cell's coverage is the sum of its motions' steps. -/
def treeInv (tr : Tree) : Prop :=
  sumMotions tr.grid = tr.size ∧ ∀ c ∈ tr.grid, dataCovOk c.data

/-! Concrete inputs used by counterexamples and witnesses. -/

/-- A logarithm instance for concrete runs (`ln` is only consumed through
hypotheses, so the constant zero function is admissible here). -/
def lgZ : Nat → ℚ := fun _ => 0

/-- Importance instance for concrete runs: order cells by score. -/
def impScore : CellData → ℚ := fun d => d.score

/-- Projection instance for concrete runs: the state handle itself. -/
def projId : Nat → Coord := fun n => [(n : Int)]

def mA : Motion := .mk 1 none 1 none

def mB : Motion := .mk 2 none 1 none

def mC : Motion := .mk 3 none 1 none

/-- A size-3 close-samples set holding distances 1, 2, 3. -/
def cs3ex : CloseSamples := ⟨3, [⟨[1], mA, 1⟩, ⟨[2], mB, 2⟩, ⟨[3], mC, 3⟩]⟩

/-- A grid whose single cell is interior: the exterior partition is empty,
so `topExternal` returns null. -/
def c2Tree : Tree := ⟨[⟨[0], false, ⟨[seedMotion 0], 0, 1, 1, 1⟩⟩], 1, 1⟩

/-- Context for the concrete split of claim C5: the projection sends the
trajectory handles 0..5 to the coordinate pattern A,A,B,B,B,C and the goal
is never satisfied. -/
def ctx5 : Ctx :=
  ⟨impScore, lgZ, fun n => [([0, 0, 1, 1, 1, 2].getD n 9 : Int)],
   fun _ => false, fun _ => 1, 1, 9 / 10, 9 / 20, 4 / 5, 1 / 20, dblEps⟩

/-- The pre-existing motion the concrete split expands from. -/
def seedM5 : Motion := .mk 9 none 0 none

/-- The tree holding `seedM5` before the concrete split. -/
def tr5 : Tree := ⟨[⟨[9], true, ⟨[seedM5], 0, 1, 1, 1⟩⟩], 1, 2⟩

/-- The concrete split of a trajectory projecting to A,A,B,B,B,C. -/
def sp5 : SplitSt :=
  splitStep ctx5 7 ((List.range 6).map (fun i => ctx5.proj ([0, 1, 2, 3, 4, 5].getD i 0)))
    [0, 1, 2, 3, 4, 5] 6 6 0 ⟨tr5, ⟨30, []⟩, seedM5, none, none, none, []⟩

/-- Context for the concrete C1 iteration: every state satisfies the goal. -/
def ctxC : Ctx :=
  ⟨impScore, lgZ, projId, fun _ => true, fun _ => 0, 1, 9 / 10, 9 / 20, 4 / 5, 1 / 20, dblEps⟩

/-- Solve state with one seeded exterior cell. -/
def sC : SolveSt :=
  ⟨⟨[⟨[0], true, ⟨[seedMotion 0], 0, 1, 1, 1000⟩⟩], 1, 1⟩, ⟨30, []⟩, none, none, none⟩

/-- Oracle whose propagation returns one valid step (`cd = 1`). -/
def oC : Oracle := ⟨1, 0, fun _ _ => 0, 7, 1, [5], 1⟩

/-- Oracle whose propagation returns no valid step (`cd = 0`). -/
def oW : Oracle := ⟨1, 0, fun _ _ => 0, 7, 0, [5], 1⟩

/-- Grid of two exterior cells with denormal scores `1e-320`, iteration 1. -/
def trW6 : Tree :=
  ⟨[⟨[0], true, ⟨[seedMotion 0], 0, 1, 1, mkRat 1 100000000000000000000000000000000000000000000000000000000000000000000000000000000000000000000000000000000000000000000000000000000000000000000000000000000000000000000000000000000000000000000000000000000000000000000000000000000000000000000000000000000000000000000000000000000000000000000000000000000000000000000000000000000⟩⟩,
    ⟨[4], true, ⟨[seedMotion 4], 0, 1, 1, mkRat 1 100000000000000000000000000000000000000000000000000000000000000000000000000000000000000000000000000000000000000000000000000000000000000000000000000000000000000000000000000000000000000000000000000000000000000000000000000000000000000000000000000000000000000000000000000000000000000000000000000000000000000000000000000000000⟩⟩], 2, 1⟩

/-- The cell selected from `trW6` (both scores tie, the heap yields the
first). -/
def c0W6 : Cell := ⟨[0], true, ⟨[seedMotion 0], 0, 1, 1, mkRat 1 100000000000000000000000000000000000000000000000000000000000000000000000000000000000000000000000000000000000000000000000000000000000000000000000000000000000000000000000000000000000000000000000000000000000000000000000000000000000000000000000000000000000000000000000000000000000000000000000000000000000000000000000000000000⟩⟩

section ListLemmas

lemma insertSample_perm (s : CloseSample) :
    ∀ l : List CloseSample, (insertSample s l).Perm (s :: l) := by
  intro l
  induction l with
  | nil => simp [insertSample]
  | cons x xs ih =>
    by_cases h : s.distance < x.distance
    · simp [insertSample, h]
    · simp only [insertSample, if_neg h]
      exact (ih.cons x).trans (List.Perm.swap s x xs)

lemma insertSample_length (s : CloseSample) (l : List CloseSample) :
    (insertSample s l).length = l.length + 1 := by
  simpa using (insertSample_perm s l).length_eq

lemma getLastD_cons_irrel (b : CloseSample) (t : List CloseSample) (d1 d2 : CloseSample) :
    (b :: t).getLastD d1 = (b :: t).getLastD d2 := rfl

lemma sorted_head_le_getLastD (t : List CloseSample) :
    ∀ a : CloseSample, sortedByDist (a :: t) →
      a.distance ≤ ((a :: t).getLastD dummySample).distance := by
  induction t with
  | nil => intro a _; simp [List.getLastD_cons]
  | cons b t2 ih =>
    intro a h
    obtain ⟨hab, hb⟩ := List.chain'_cons.mp h
    have h2 := ih b hb
    calc a.distance ≤ b.distance := hab
    _ ≤ ((b :: t2).getLastD dummySample).distance := h2
    _ = ((a :: b :: t2).getLastD dummySample).distance :=
      congrArg CloseSample.distance (getLastD_cons_irrel b t2 dummySample a)

lemma sorted_mem_le_getLastD :
    ∀ (l : List CloseSample), sortedByDist l → ∀ x ∈ l,
      x.distance ≤ (l.getLastD dummySample).distance := by
  intro l
  induction l with
  | nil => intro _ x hx; cases hx
  | cons a t ih =>
    intro h x hx
    rcases List.mem_cons.mp hx with rfl | hxt
    · exact sorted_head_le_getLastD t x h
    · have ht : sortedByDist t := h.tail
      have hle := ih ht x hxt
      rcases t with _ | ⟨b, t2⟩
      · cases hxt
      · calc x.distance ≤ ((b :: t2).getLastD dummySample).distance := hle
        _ = ((a :: b :: t2).getLastD dummySample).distance :=
          congrArg CloseSample.distance (getLastD_cons_irrel b t2 dummySample a)

lemma sorted_head_le_mem (t : List CloseSample) :
    ∀ a : CloseSample, sortedByDist (a :: t) → ∀ x ∈ a :: t, a.distance ≤ x.distance := by
  induction t with
  | nil =>
    intro a _ x hx
    rcases List.mem_cons.mp hx with rfl | h
    · exact le_refl _
    · cases h
  | cons b t2 ih =>
    intro a h x hx
    obtain ⟨hab, hb⟩ := List.chain'_cons.mp h
    rcases List.mem_cons.mp hx with rfl | hxt
    · exact le_refl _
    · exact le_trans hab (ih b hb x hxt)

end ListLemmas

/-- C3: `CloseSamples::selectMotion` on a non-empty set pops the entry with
smallest distance and re-inserts it through `consider` with the inflated
distance `0.55 * (smallest + largest)`; on the size-3 set holding distances
1, 2, 3 it returns the distance-1 motion and leaves distances 2, 2.2, 3;
on an empty set it returns none. -/
theorem C3_close_samples_inflation :
    (∀ (cs : CloseSamples) (best : CloseSample) (rest : List CloseSample),
       cs.samples = best :: rest →
       cs.selectMotion.1 = some (best.motion, best.cell) ∧
       (sortedByDist cs.samples → ∀ x ∈ cs.samples, best.distance ≤ x.distance) ∧
       cs.selectMotion.2 =
         (CloseSamples.consider ⟨cs.maxSize, rest⟩ best.cell best.motion
           ((best.distance + (cs.samples.getLastD dummySample).distance) * (11 / 20))).2) ∧
    (cs3ex.selectMotion.1 = some (mA, [1]) ∧
       (cs3ex.selectMotion.2).samples.map (fun s => s.distance) = [2, 11 / 5, 3]) ∧
    (∀ cs : CloseSamples, cs.samples = [] → cs.selectMotion = (none, cs)) := by
  refine ⟨?_, ⟨?_, ?_⟩, ?_⟩
  · intro cs best rest h
    obtain ⟨mx, samples⟩ := cs
    simp only at h
    subst h
    exact ⟨rfl, fun hs x hx => sorted_head_le_mem rest best hs x hx, rfl⟩
  · with_unfolding_all rfl
  · with_unfolding_all rfl
  · intro cs h
    obtain ⟨mx, samples⟩ := cs
    simp only at h
    subst h
    rfl

/-- Witness for C3: the general part of the theorem applied to the concrete
size-3 set. -/
theorem C3_witness :
    cs3ex.selectMotion.1 = some (mA, [1]) ∧
      (∀ x ∈ cs3ex.samples, (1 : ℚ) ≤ x.distance) := by
  have h := (C3_close_samples_inflation.1 cs3ex ⟨[1], mA, 1⟩
    [⟨[2], mB, 2⟩, ⟨[3], mC, 3⟩] rfl)
  refine ⟨h.1, ?_⟩
  have hs : sortedByDist cs3ex.samples := by
    constructor
    · with_unfolding_all exact of_decide_eq_true rfl
    · constructor
      · with_unfolding_all exact of_decide_eq_true rfl
      · exact List.chain'_singleton _
  exact h.2.1 hs

/-- C4: `CloseSamples::consider` accepts and inserts exactly when the set is
empty or the distance is strictly below the largest stored distance
(evicting the worst entry first when at capacity), and otherwise rejects,
leaving the set unchanged; under a positive capacity the size bound
`size ≤ maxSize` is preserved. -/
theorem C4_consider_spec :
    ∀ (cs : CloseSamples) (cell : Coord) (m : Motion) (d : ℚ),
      (cs.samples = [] → cs.consider cell m d = (true, ⟨cs.maxSize, [⟨cell, m, d⟩]⟩)) ∧
      (cs.samples ≠ [] → d < (cs.samples.getLastD dummySample).distance →
         (cs.consider cell m d).1 = true ∧
         (⟨cell, m, d⟩ : CloseSample) ∈ (cs.consider cell m d).2.samples ∧
         (cs.consider cell m d).2.samples.Perm
           ((⟨cell, m, d⟩ : CloseSample) ::
             (if cs.maxSize ≤ cs.samples.length then cs.samples.dropLast else cs.samples))) ∧
      (cs.samples ≠ [] → ¬ d < (cs.samples.getLastD dummySample).distance →
         cs.consider cell m d = (false, cs)) ∧
      (sortedByDist cs.samples →
         ∀ x ∈ cs.samples, x.distance ≤ (cs.samples.getLastD dummySample).distance) ∧
      (1 ≤ cs.maxSize → cs.samples.length ≤ cs.maxSize →
         (cs.consider cell m d).2.samples.length ≤ cs.maxSize) := by
  intro cs cell m d
  obtain ⟨mx, samples⟩ := cs
  refine ⟨?_, ?_, ?_, ?_, ?_⟩
  · intro h
    simp only at h
    subst h
    rfl
  · intro hne hd
    rcases samples with _ | ⟨a, t⟩
    · exact absurd rfl hne
    · simp only [CloseSamples.consider, List.isEmpty_cons, if_neg Bool.false_ne_true] at *
      rw [if_pos hd]
      refine ⟨rfl, ?_, ?_⟩
      · exact ((insertSample_perm _ _).mem_iff).mpr (List.mem_cons_self _ _)
      · exact insertSample_perm _ _
  · intro hne hd
    rcases samples with _ | ⟨a, t⟩
    · exact absurd rfl hne
    · simp only [CloseSamples.consider, List.isEmpty_cons, if_neg Bool.false_ne_true]
      rw [if_neg hd]
  · exact fun hs x hx => sorted_mem_le_getLastD samples hs x hx
  · intro h1 h2
    rcases samples with _ | ⟨a, t⟩
    · simpa [CloseSamples.consider, insertSample] using h1
    · simp only [CloseSamples.consider, List.isEmpty_cons, if_neg Bool.false_ne_true]
      by_cases hd : d < (((a :: t)).getLastD dummySample).distance
      · rw [if_pos hd]
        simp only [insertSample_length]
        by_cases hcap : mx ≤ (a :: t).length
        · rw [if_pos hcap]
          simp only [List.length_dropLast, List.length_cons] at *
          omega
        · rw [if_neg hcap]
          simp only [List.length_cons] at *
          omega
      · rw [if_neg hd]
        exact h2

lemma findNextFrom_all_eq (coords : List Coord) (index count : Nat) :
    ∀ n i, count - i ≤ n →
      (∀ j, i ≤ j → j < count → coords.getD j [] = coords.getD index []) →
      findNextFrom coords index count i = count - 1 := by
  intro n
  induction n with
  | zero =>
    intro i hn _
    rw [findNextFrom, dif_neg (by omega)]
  | succ n ih =>
    intro i hn hall
    rw [findNextFrom]
    by_cases hi : i < count
    · rw [dif_pos hi]
      have he : coords.getD i [] = coords.getD index [] := hall i (le_refl i) hi
      rw [if_neg (fun h => h he)]
      exact ih (i + 1) (by omega) (fun j hj hjc => hall j (by omega) hjc)
    · rw [dif_neg hi]

lemma findNextFrom_first (coords : List Coord) (index count : Nat) :
    ∀ n i0 i, i - i0 ≤ n → i0 ≤ i → i < count →
      coords.getD i [] ≠ coords.getD index [] →
      (∀ j, i0 ≤ j → j < i → coords.getD j [] = coords.getD index []) →
      findNextFrom coords index count i0 = i - 1 := by
  intro n
  induction n with
  | zero =>
    intro i0 i hn hle hic hneq _
    have hii : i = i0 := by omega
    subst hii
    rw [findNextFrom, dif_pos hic, if_pos hneq]
  | succ n ih =>
    intro i0 i hn hle hic hneq hall
    by_cases heq : i0 = i
    · subst heq
      rw [findNextFrom, dif_pos hic, if_pos hneq]
    · have hi0c : i0 < count := by omega
      rw [findNextFrom, dif_pos hi0c]
      have he : coords.getD i0 [] = coords.getD index [] := hall i0 (le_refl _) (by omega)
      rw [if_neg (fun h => h he)]
      exact ih (i0 + 1) i (by omega) (by omega) hic hneq (fun j hj hji => hall j (by omega) hji)

/-- Witness for C4: the rejection branch at a concrete set and distance. -/
theorem C4_witness :
    cs3ex.consider [7] mA 5 = (false, cs3ex) := by
  have h := (C4_consider_spec cs3ex [7] mA 5).2.2.1
    (by simp [cs3ex])
    (by with_unfolding_all exact of_decide_eq_true rfl)
  exact h

/-- C5: `findNextMotion` returns `i - 1` for the smallest `i > index` whose
coordinate differs from the one at `index`, and `count - 1` when no later
coordinate differs; splitting a trajectory projecting to A,A,B,B,B,C yields
three children with steps 2, 3, 1, each child's parent being the previous
segment's endpoint. -/
theorem C5_find_next_and_split :
    (∀ (coords : List Coord) (index count : Nat),
       (∀ j, index < j → j < count → coords.getD j [] = coords.getD index []) →
       findNextMotion coords index count = count - 1) ∧
    (∀ (coords : List Coord) (index count i : Nat),
       index < i → i < count → coords.getD i [] ≠ coords.getD index [] →
       (∀ j, index < j → j < i → coords.getD j [] = coords.getD index []) →
       findNextMotion coords index count = i - 1) ∧
    (sp5.children.map Motion.steps = [2, 3, 1] ∧
     (sp5.children.getD 0 seedM5).parent = some seedM5 ∧
     (sp5.children.getD 1 seedM5).parent = some (sp5.children.getD 0 seedM5) ∧
     (sp5.children.getD 2 seedM5).parent = some (sp5.children.getD 1 seedM5)) := by
  refine ⟨?_, ?_, ?_, ?_, ?_, ?_⟩
  · intro coords index count hall
    exact findNextFrom_all_eq coords index count count (index + 1) (by omega)
      (fun j hj hjc => hall j (by omega) hjc)
  · intro coords index count i hlt hic hneq hall
    exact findNextFrom_first coords index count i (index + 1) i (by omega) (by omega) hic hneq
      (fun j hj hji => hall j (by omega) hji)
  · with_unfolding_all rfl
  · with_unfolding_all rfl
  · with_unfolding_all rfl
  · with_unfolding_all rfl

/-- Witness for C5: the boundary characterization applied at the concrete
coordinate list A,A,B. -/
theorem C5_witness :
    findNextMotion [[0], [0], [1]] 0 3 = 1 := by
  have h := C5_find_next_and_split.2.1 [[0], [0], [1]] 0 3 2
    (by omega) (by omega) (by decide)
    (fun j h1 h2 => by
      have hj : j = 1 := by omega
      subst hj
      rfl)
  exact h

/-- C8 counterexample: `badScoreFactor = ε` lies outside the interval
`(ε, 1]` claimed by the spec, yet the validation of `setup` accepts the
configuration `(ε, 1/2, 1/2)`. -/
theorem C8_eps_boundary_counterexample :
    ¬ (dblEps < dblEps ∧ dblEps ≤ 1) ∧ setupCheck dblEps (1 / 2) (1 / 2) = .ok () := by
  constructor
  · intro h
    exact absurd h.1 (lt_irrefl _)
  · with_unfolding_all rfl

/-- C8 amended: `setup` accepts exactly the configurations whose three
factors all lie in the closed-below interval `[ε, 1]`, and rejects every
other configuration. -/
theorem C8_interval_amended :
    ∀ b g s : ℚ,
      setupCheck b g s = .ok () ↔
        dblEps ≤ b ∧ b ≤ 1 ∧ dblEps ≤ g ∧ g ≤ 1 ∧ dblEps ≤ s ∧ s ≤ 1 := by
  intro b g s
  unfold setupCheck
  split_ifs with h1 h2 h3
  · constructor
    · intro h
      cases h
    · rintro ⟨hb1, hb2, -⟩
      rcases h1 with h | h <;> linarith
  · constructor
    · intro h
      cases h
    · rintro ⟨-, -, hg1, hg2, -⟩
      rcases h2 with h | h <;> linarith
  · constructor
    · intro h
      cases h
    · rintro ⟨-, -, -, -, hs1, hs2⟩
      rcases h3 with h | h <;> linarith
  · refine ⟨fun _ => ?_, fun _ => rfl⟩
    push_neg at h1 h2 h3
    exact ⟨h1.1, h1.2, h2.1, h2.2, h3.1, h3.2⟩

/-- Witness for C8: a configuration inside `[ε, 1]` passes validation. -/
theorem C8_witness :
    setupCheck (1 / 2) (1 / 2) 1 = .ok () :=
  (C8_interval_amended (1 / 2) (1 / 2) 1).mpr
    (by with_unfolding_all exact of_decide_eq_true rfl)

/-- C2: on a grid whose single cell is interior, a selection draw below the
border fraction chooses the empty exterior partition; its top cell is null,
and the embedded `selectMotion` reaches the `scell->data->score < ε` read
with a null `scell` (outcome `nullDeref`) instead of returning failure. -/
theorem C2_null_top_dereference :
    chosenTop impScore (4 / 5) 0 c2Tree = none ∧
    kpSelect impScore lgZ dblEps (4 / 5) 0 (fun _ _ => 0) c2Tree
      = ⟨.nullDeref, c2Tree, false⟩ := by
  constructor
  · with_unfolding_all rfl
  · with_unfolding_all rfl

section GridLemmas

lemma sumMotions_nil : sumMotions [] = 0 := rfl

lemma sumMotions_cons (c : Cell) (g : List Cell) :
    sumMotions (c :: g) = c.data.motions.length + sumMotions g := by
  simp [sumMotions]

lemma sumMotions_append (g1 g2 : List Cell) :
    sumMotions (g1 ++ g2) = sumMotions g1 + sumMotions g2 := by
  simp [sumMotions]

lemma updCell_length (g : List Cell) (k : Coord) (f : CellData → CellData) :
    (updCell g k f).length = g.length := by
  induction g with
  | nil => rfl
  | cons c rest ih =>
    by_cases h : c.coord = k
    · simp [updCell, h]
    · simp [updCell, h, ih]

lemma mem_updCell (g : List Cell) (k : Coord) (f : CellData → CellData) :
    ∀ c1 ∈ updCell g k f, c1 ∈ g ∨ ∃ c ∈ g, c1 = { c with data := f c.data } := by
  induction g with
  | nil => intro c1 h1; cases h1
  | cons c rest ih =>
    intro c1 h1
    by_cases h : c.coord = k
    · simp only [updCell, if_pos h] at h1
      rcases List.mem_cons.mp h1 with rfl | hr
      · exact Or.inr ⟨c, List.mem_cons_self _ _, rfl⟩
      · exact Or.inl (List.mem_cons_of_mem _ hr)
    · simp only [updCell, if_neg h] at h1
      rcases List.mem_cons.mp h1 with rfl | hr
      · exact Or.inl (List.mem_cons_self _ _)
      · rcases ih c1 hr with h2 | ⟨c3, hc3, hceq⟩
        · exact Or.inl (List.mem_cons_of_mem _ h2)
        · exact Or.inr ⟨c3, List.mem_cons_of_mem _ hc3, hceq⟩

lemma sumMotions_updCell_const (g : List Cell) (k : Coord) (f : CellData → CellData)
    (hf : ∀ d, (f d).motions.length = d.motions.length) :
    sumMotions (updCell g k f) = sumMotions g := by
  induction g with
  | nil => rfl
  | cons c rest ih =>
    by_cases h : c.coord = k
    · simp only [updCell, if_pos h, sumMotions_cons, hf]
    · simp only [updCell, if_neg h, sumMotions_cons, ih]

lemma covOk_updCell (g : List Cell) (k : Coord) (f : CellData → CellData)
    (hmem : ∀ c ∈ g, dataCovOk c.data) (hf : ∀ d, dataCovOk d → dataCovOk (f d)) :
    ∀ c1 ∈ updCell g k f, dataCovOk c1.data := by
  intro c1 h1
  rcases mem_updCell g k f c1 h1 with h | ⟨c, hc, rfl⟩
  · exact hmem _ h
  · exact hf _ (hmem _ hc)

lemma getCell_cons (c : Cell) (rest : List Cell) (k : Coord) :
    getCell (c :: rest) k = if c.coord = k then some c else getCell rest k := by
  by_cases h : c.coord = k <;> simp [getCell, List.find?_cons, h]

lemma sumMotions_updCell_app (m : Motion) :
    ∀ (g : List Cell) (k : Coord), (getCell g k).isSome →
      sumMotions (updCell g k
        (fun d => { d with motions := d.motions ++ [m], coverage := d.coverage + m.steps }))
        = sumMotions g + 1 := by
  intro g
  induction g with
  | nil =>
    intro k h
    simp [getCell] at h
  | cons c rest ih =>
    intro k h
    by_cases hc : c.coord = k
    · simp only [updCell, if_pos hc, sumMotions_cons]
      simp only [List.length_append, List.length_cons, List.length_nil]
      omega
    · rw [getCell_cons, if_neg hc] at h
      simp only [updCell, if_neg hc, sumMotions_cons, ih k h]
      omega

lemma getCell_isSome_ne_nil (g : List Cell) (k : Coord) (h : (getCell g k).isSome) :
    g ≠ [] := by
  intro hg
  subst hg
  simp [getCell] at h

/-- `addMotion` preserves the tree invariant. -/
lemma addMotion_inv (lg : Nat → ℚ) (proj : Nat → Coord) (tr : Tree) (m : Motion) (dist : ℚ)
    (h : treeInv tr) : treeInv (addMotion lg proj tr m dist).1 := by
  obtain ⟨hsum, hcov⟩ := h
  rcases hget : getCell tr.grid (proj m.state) with _ | c
  · constructor
    · simp only [addMotion, hget, sumMotions_append, sumMotions_cons, sumMotions_nil]
      simp only [List.length_cons, List.length_nil]
      omega
    · intro c1 hc1
      simp only [addMotion, hget] at hc1
      rcases List.mem_append.mp hc1 with hold | hnew
      · exact hcov _ hold
      · rcases List.mem_cons.mp hnew with rfl | hfalse
        · simp [dataCovOk]
        · cases hfalse
  · constructor
    · rw [addMotion]
      simp only [hget]
      rw [sumMotions_updCell_app m tr.grid (proj m.state) (by rw [hget]; rfl)]
      omega
    · intro c1 hc1
      simp only [addMotion, hget] at hc1
      refine covOk_updCell tr.grid (proj m.state) _ hcov ?_ c1 hc1
      intro d hd
      simp only [dataCovOk] at hd ⊢
      simp [List.map_append, hd]

lemma addMotion_size (lg : Nat → ℚ) (proj : Nat → Coord) (tr : Tree) (m : Motion) (dist : ℚ) :
    (addMotion lg proj tr m dist).1.size = tr.size + 1 := by
  rcases hget : getCell tr.grid (proj m.state) with _ | c <;> simp [addMotion, hget]

lemma addMotion_grid_length (lg : Nat → ℚ) (proj : Nat → Coord) (tr : Tree) (m : Motion)
    (dist : ℚ) :
    tr.grid.length ≤ (addMotion lg proj tr m dist).1.grid.length ∧
      1 ≤ (addMotion lg proj tr m dist).1.grid.length := by
  rcases hget : getCell tr.grid (proj m.state) with _ | c
  · simp [addMotion, hget]
  · have hne := getCell_isSome_ne_nil tr.grid (proj m.state) (by rw [hget]; rfl)
    have hlen : 1 ≤ tr.grid.length := List.length_pos.mpr hne
    simp [addMotion, hget, updCell_length, hlen]

lemma addMotion_motions_src (lg : Nat → ℚ) (proj : Nat → Coord) (tr : Tree) (m : Motion)
    (dist : ℚ) :
    ∀ c1 ∈ (addMotion lg proj tr m dist).1.grid, ∀ m1 ∈ c1.data.motions,
      (∃ c ∈ tr.grid, m1 ∈ c.data.motions) ∨ m1 = m := by
  intro c1 hc1 m1 hm1
  rcases hget : getCell tr.grid (proj m.state) with _ | c
  · simp only [addMotion, hget] at hc1
    rcases List.mem_append.mp hc1 with hold | hnew
    · exact Or.inl ⟨c1, hold, hm1⟩
    · rcases List.mem_cons.mp hnew with rfl | hfalse
      · simp only [List.mem_singleton] at hm1
        exact Or.inr hm1
      · cases hfalse
  · simp only [addMotion, hget] at hc1
    rcases mem_updCell _ _ _ c1 hc1 with hold | ⟨c2, hc2, rfl⟩
    · exact Or.inl ⟨c1, hold, hm1⟩
    · simp only [List.mem_append, List.mem_singleton] at hm1
      rcases hm1 with hold2 | rfl
      · exact Or.inl ⟨c2, hc2, hold2⟩
      · exact Or.inr rfl

end GridLemmas

section LoopLemmas

lemma splitStep_inv (ctx : Ctx) (rctrl : Nat) (coords : List Coord) (states : List Nat)
    (cd : Nat) :
    ∀ fuel index st, treeInv st.tr →
      treeInv (splitStep ctx rctrl coords states cd fuel index st).tr := by
  intro fuel
  induction fuel with
  | zero => intro index st h; exact h
  | succ n ih =>
    intro index st h
    simp only [splitStep]
    by_cases hi : index < cd
    · rw [if_pos hi]
      split
      · exact addMotion_inv _ _ _ _ _ h
      · exact ih _ _ (addMotion_inv _ _ _ _ _ h)
    · rw [if_neg hi]
      exact h

lemma splitStep_grid_len (ctx : Ctx) (rctrl : Nat) (coords : List Coord) (states : List Nat)
    (cd : Nat) :
    ∀ fuel index st,
      st.tr.grid.length ≤ (splitStep ctx rctrl coords states cd fuel index st).tr.grid.length := by
  intro fuel
  induction fuel with
  | zero => intro index st; exact le_refl _
  | succ n ih =>
    intro index st
    simp only [splitStep]
    by_cases hi : index < cd
    · rw [if_pos hi]
      split
      · exact (addMotion_grid_length _ _ _ _ _).1
      · refine le_trans ?_ (ih _ _)
        exact (addMotion_grid_length _ _ _ _ _).1
    · rw [if_neg hi]

lemma applyFactor_inv (tr : Tree) (k : Coord) (f : ℚ) (h : treeInv tr) :
    treeInv (applyFactor tr k f) := by
  obtain ⟨hsum, hcov⟩ := h
  constructor
  · simp only [applyFactor]
    rw [sumMotions_updCell_const tr.grid k (fun d => { d with score := d.score * f })
      (fun d => rfl)]
    exact hsum
  · intro c1 hc1
    simp only [applyFactor] at hc1
    exact covOk_updCell tr.grid k (fun d => { d with score := d.score * f })
      hcov (fun d hd => hd) c1 hc1

lemma applyFactor_len (tr : Tree) (k : Coord) (f : ℚ) :
    (applyFactor tr k f).grid.length = tr.grid.length := by
  simp [applyFactor, updCell_length]

lemma kpSelectTail_inv (hn : Nat → Nat → Nat) (tr : Tree) (c : Cell) (upd : Bool)
    (h : treeInv tr) : treeInv (kpSelectTail hn tr c upd).tr := by
  obtain ⟨hsum, hcov⟩ := h
  unfold kpSelectTail
  split
  · exact ⟨hsum, hcov⟩
  · constructor
    · simp only
      rw [sumMotions_updCell_const tr.grid c.coord
        (fun d => { d with selections := d.selections + 1 }) (fun d => rfl)]
      exact hsum
    · intro c1 hc1
      simp only at hc1
      exact covOk_updCell tr.grid c.coord (fun d => { d with selections := d.selections + 1 })
        hcov (fun d hd => hd) c1 hc1

lemma kpSelectTail_len (hn : Nat → Nat → Nat) (tr : Tree) (c : Cell) (upd : Bool) :
    (kpSelectTail hn tr c upd).tr.grid.length = tr.grid.length ∧
      (kpSelectTail hn tr c upd).tr.size = tr.size := by
  unfold kpSelectTail
  split
  · exact ⟨rfl, rfl⟩
  · exact ⟨updCell_length _ _ _, rfl⟩

lemma rescued_inv (lg : Nat → ℚ) (tr : Tree) (h : treeInv tr) :
    treeInv { tr with grid := tr.grid.map (fun c => { c with data := rescueCell lg c.data }) } := by
  obtain ⟨hsum, hcov⟩ := h
  constructor
  · simp only [sumMotions, List.map_map]
    exact hsum
  · intro c1 hc1
    simp only [List.mem_map] at hc1
    obtain ⟨c, hc, rfl⟩ := hc1
    exact hcov c hc

lemma kpSelect_inv (imp : CellData → ℚ) (lg : Nat → ℚ) (eps sbf u : ℚ) (hn : Nat → Nat → Nat)
    (tr : Tree) :
    (treeInv tr → treeInv (kpSelect imp lg eps sbf u hn tr).tr) ∧
      (kpSelect imp lg eps sbf u hn tr).tr.grid.length = tr.grid.length ∧
      (kpSelect imp lg eps sbf u hn tr).tr.size = tr.size := by
  unfold kpSelect
  rcases chosenTop imp sbf u tr with _ | c0
  · exact ⟨fun h => h, rfl, rfl⟩
  · simp only
    split
    · refine ⟨fun h => kpSelectTail_inv _ _ _ _ (rescued_inv lg tr h), ?_, ?_⟩
      · rw [(kpSelectTail_len _ _ _ _).1]
        simp
      · rw [(kpSelectTail_len _ _ _ _).2]
    · exact ⟨fun h => kpSelectTail_inv _ _ _ _ h,
        (kpSelectTail_len _ _ _ _).1, (kpSelectTail_len _ _ _ _).2⟩

lemma cellSelectPhase_props (ctx : Ctx) (o : Oracle) (tr : Tree) (m : Motion) (k : Coord)
    (tr1 : Tree) (h : cellSelectPhase ctx o tr = some (m, k, tr1)) :
    tr1.grid.length = tr.grid.length ∧ tr1.size = tr.size ∧ (treeInv tr → treeInv tr1) := by
  unfold cellSelectPhase at h
  rcases hk : kpSelect ctx.imp ctx.lg ctx.eps ctx.selectBorderFraction o.uSel o.hn tr
    with ⟨out, tr2, upd⟩
  rw [hk] at h
  have hprops := kpSelect_inv ctx.imp ctx.lg ctx.eps ctx.selectBorderFraction o.uSel o.hn tr
  rw [hk] at hprops
  rcases out with _ | _ | ⟨m2, k2⟩
  · injection h
  · injection h
  · obtain ⟨rfl, rfl, rfl⟩ : m2 = m ∧ k2 = k ∧ tr2 = tr1 := by
      injection h with h2
      injection h2 with ha hb
      injection hb with hb hc
      exact ⟨ha, hb, hc⟩
    exact ⟨hprops.2.1, hprops.2.2, hprops.1⟩

lemma iterTail_inv (ctx : Ctx) (rctrl cd : Nat) (uFall : ℚ) (states : List Nat)
    (ecell : Coord) (existing : Motion) (s : SolveSt) (h : treeInv s.tr) :
    treeInv (iterTail ctx rctrl cd uFall states ecell existing s).1.tr := by
  simp only [iterTail]
  split
  · split
    · split
      · exact splitStep_inv _ _ _ _ _ _ _ _ h
      · exact applyFactor_inv _ _ _ (splitStep_inv _ _ _ _ _ _ _ _ h)
    · exact applyFactor_inv _ _ _ h
  · exact applyFactor_inv _ _ _ h

lemma iterTail_grid_len (ctx : Ctx) (rctrl cd : Nat) (uFall : ℚ) (states : List Nat)
    (ecell : Coord) (existing : Motion) (s : SolveSt) :
    s.tr.grid.length ≤ (iterTail ctx rctrl cd uFall states ecell existing s).1.tr.grid.length := by
  simp only [iterTail]
  split
  · split
    · split
      · exact splitStep_grid_len _ _ _ _ _ _ _
          ⟨s.tr, s.cs, existing, none, s.approxdif, s.approxsol, []⟩
      · rw [applyFactor_len]
        exact splitStep_grid_len _ _ _ _ _ _ _
          ⟨s.tr, s.cs, existing, none, s.approxdif, s.approxsol, []⟩
    · rw [applyFactor_len]
  · rw [applyFactor_len]

lemma iterTail_denom (ctx : Ctx) (rctrl cd : Nat) (uFall : ℚ) (states : List Nat)
    (ecell : Coord) (existing : Motion) (s : SolveSt) :
    ∀ d, (iterTail ctx rctrl cd uFall states ecell existing s).2.avgDenom = some d →
      d = 3 * s.tr.grid.length := by
  intro d
  simp only [iterTail]
  split
  · split
    · split
      · intro h
        injection h with h
        exact h.symm
      · intro h
        injection h with h
        exact h.symm
    · intro h
      injection h with h
      exact h.symm
  · intro h
    cases h

lemma iterate_decompose (ctx : Ctx) (o : Oracle) (s : SolveSt) (s1 : SolveSt)
    (ev : IterEvents) (h : iterate ctx o s = some (s1, ev)) :
    ∃ m k s2, s2.tr.grid.length = s.tr.grid.length ∧ s2.tr.size = s.tr.size ∧
      (treeInv s.tr → treeInv s2.tr) ∧
      (s1, ev) = iterTail ctx o.rctrl o.cd o.uFall o.states k m s2 := by
  simp only [iterate] at h
  by_cases hc : (s.cs.canSample && decide (o.uGoal < ctx.goalBias)) = true
  · rw [if_pos hc] at h
    rcases hsel : s.cs.selectMotion with ⟨opt, cs1⟩
    rw [hsel] at h
    rcases opt with _ | ⟨m, k⟩
    · rcases hcp : cellSelectPhase ctx o { s.tr with iteration := s.tr.iteration + 1 }
        with _ | ⟨m, k, tr1⟩
      · rw [hcp] at h
        injection h
      · rw [hcp] at h
        have hp := cellSelectPhase_props ctx o _ m k tr1 hcp
        injection h with h
        refine ⟨m, k, _, hp.1, hp.2.1, fun hv => hp.2.2 hv, h.symm⟩
    · injection h with h
      exact ⟨m, k, ⟨{ s.tr with iteration := s.tr.iteration + 1 }, cs1, s.solution,
        s.approxdif, s.approxsol⟩, rfl, rfl, fun hv => hv, h.symm⟩
  · rw [if_neg hc] at h
    rcases hcp : cellSelectPhase ctx o { s.tr with iteration := s.tr.iteration + 1 }
      with _ | ⟨m, k, tr1⟩
    · rw [hcp] at h
      injection h
    · rw [hcp] at h
      have hp := cellSelectPhase_props ctx o _ m k tr1 hcp
      injection h with h
      refine ⟨m, k, _, hp.1, hp.2.1, fun hv => hp.2.2 hv, h.symm⟩

lemma iterate_inv (ctx : Ctx) (o : Oracle) (s : SolveSt) (s1 : SolveSt) (ev : IterEvents)
    (hv : treeInv s.tr) (h : iterate ctx o s = some (s1, ev)) : treeInv s1.tr := by
  obtain ⟨m, k, s2, hlen, hsz, hinv, heq⟩ := iterate_decompose ctx o s s1 ev h
  have h2 := iterTail_inv ctx o.rctrl o.cd o.uFall o.states k m s2 (hinv hv)
  rw [← heq] at h2
  exact h2

lemma iterate_grid_props (ctx : Ctx) (o : Oracle) (s : SolveSt) (s1 : SolveSt)
    (ev : IterEvents) (h : iterate ctx o s = some (s1, ev)) :
    s.tr.grid.length ≤ s1.tr.grid.length ∧
      (∀ d, ev.avgDenom = some d → d = 3 * s.tr.grid.length) := by
  obtain ⟨m, k, s2, hlen, hsz, hinv, heq⟩ := iterate_decompose ctx o s s1 ev h
  constructor
  · have h2 := iterTail_grid_len ctx o.rctrl o.cd o.uFall o.states k m s2
    rw [← heq] at h2
    simp only at h2
    rw [hlen] at h2
    exact h2
  · intro d hd
    have h2 := iterTail_denom ctx o.rctrl o.cd o.uFall o.states k m s2 d
    rw [← heq] at h2
    simp only at h2
    rw [hlen] at h2
    exact h2 hd

lemma runIters_inv (ctx : Ctx) :
    ∀ (os : List Oracle) (s s1 : SolveSt), treeInv s.tr →
      runIters ctx os s = some s1 → treeInv s1.tr := by
  intro os
  induction os with
  | nil =>
    intro s s1 hv h
    injection h with h
    rw [← h]
    exact hv
  | cons o rest ih =>
    intro s s1 hv h
    rw [runIters] at h
    split at h
    · injection h with h
      rw [← h]
      exact hv
    · rcases hit : iterate ctx o s with _ | ⟨s2, ev⟩
      · rw [hit] at h
        simp at h
      · rw [hit] at h
        exact ih s2 s1 (iterate_inv ctx o s s2 ev hv hit) h

lemma runIters_grid_len (ctx : Ctx) :
    ∀ (os : List Oracle) (s s1 : SolveSt), runIters ctx os s = some s1 →
      s.tr.grid.length ≤ s1.tr.grid.length := by
  intro os
  induction os with
  | nil =>
    intro s s1 h
    injection h with h
    rw [← h]
  | cons o rest ih =>
    intro s s1 h
    rw [runIters] at h
    split at h
    · injection h with h
      rw [← h]
    · rcases hit : iterate ctx o s with _ | ⟨s2, ev⟩
      · rw [hit] at h
        simp at h
      · rw [hit] at h
        exact le_trans (iterate_grid_props ctx o s s2 ev hit).1 (ih s2 s1 h)

end LoopLemmas

section SeedLemmas

lemma seedFold_inv (lg : Nat → ℚ) (proj : Nat → Coord) :
    ∀ (starts : List Nat) (tr : Tree), treeInv tr →
      treeInv (starts.foldl (fun t st => (addMotion lg proj t (seedMotion st) 1).1) tr) := by
  intro starts
  induction starts with
  | nil => intro tr h; exact h
  | cons st rest ih => intro tr h; exact ih _ (addMotion_inv _ _ _ _ _ h)

lemma seedFold_size (lg : Nat → ℚ) (proj : Nat → Coord) :
    ∀ (starts : List Nat) (tr : Tree),
      (starts.foldl (fun t st => (addMotion lg proj t (seedMotion st) 1).1) tr).size
        = tr.size + starts.length := by
  intro starts
  induction starts with
  | nil => intro tr; simp
  | cons st rest ih =>
    intro tr
    have h2 := ih (addMotion lg proj tr (seedMotion st) 1).1
    simp only [List.foldl_cons] at *
    rw [h2, addMotion_size]
    simp only [List.length_cons]
    omega

lemma seedFold_len (lg : Nat → ℚ) (proj : Nat → Coord) :
    ∀ (starts : List Nat) (tr : Tree),
      tr.grid.length ≤
        (starts.foldl (fun t st => (addMotion lg proj t (seedMotion st) 1).1) tr).grid.length := by
  intro starts
  induction starts with
  | nil => intro tr; exact le_refl _
  | cons st rest ih =>
    intro tr
    exact le_trans (addMotion_grid_length _ _ _ _ _).1 (ih _)

lemma seedFold_motions (lg : Nat → ℚ) (proj : Nat → Coord) :
    ∀ (starts : List Nat) (tr : Tree),
      (∀ c ∈ tr.grid, ∀ m ∈ c.data.motions,
         m.parent = none ∧ m.control = none ∧ m.steps = 0) →
      ∀ c ∈ (starts.foldl (fun t st => (addMotion lg proj t (seedMotion st) 1).1) tr).grid,
        ∀ m ∈ c.data.motions, m.parent = none ∧ m.control = none ∧ m.steps = 0 := by
  intro starts
  induction starts with
  | nil => intro tr h; exact h
  | cons st rest ih =>
    intro tr h
    refine ih _ ?_
    intro c hc m hm
    rcases addMotion_motions_src lg proj tr (seedMotion st) 1 c hc m hm with ⟨c2, hc2, hm2⟩ | rfl
    · exact h _ hc2 _ hm2
    · exact ⟨rfl, rfl, rfl⟩

lemma seed_inv (lg : Nat → ℚ) (proj : Nat → Coord) (starts : List Nat) :
    treeInv (seed lg proj starts) :=
  seedFold_inv lg proj starts emptyTree ⟨rfl, fun c hc => absurd hc (List.not_mem_nil c)⟩

lemma seed_grid_len (lg : Nat → ℚ) (proj : Nat → Coord) (starts : List Nat)
    (h : starts ≠ []) : 1 ≤ (seed lg proj starts).grid.length := by
  rcases starts with _ | ⟨st, rest⟩
  · exact absurd rfl h
  · refine le_trans ?_ (seedFold_len lg proj rest _)
    exact (addMotion_grid_length lg proj emptyTree (seedMotion st) 1).2

lemma solveStart_ok (lg : Nat → ℚ) (proj : Nat → Coord) (starts : List Nat) (tr : Tree)
    (h : solveStart lg proj starts = .ok tr) :
    tr = seed lg proj starts ∧ ¬ (seed lg proj starts).grid.length = 0 := by
  simp only [solveStart] at h
  split at h
  · cases h
  · injection h with h
    constructor
    · exact h.symm
    · assumption

end SeedLemmas

section EventLemmas

lemma kpSelectTail_upd (hn : Nat → Nat → Nat) (tr : Tree) (c : Cell) (upd : Bool) :
    (kpSelectTail hn tr c upd).updateAllCalled = upd := by
  unfold kpSelectTail
  split <;> rfl

lemma kpSelectTail_mem (hn : Nat → Nat → Nat) (tr : Tree) (c : Cell) (upd : Bool) :
    ∀ c1 ∈ (kpSelectTail hn tr c upd).tr.grid,
      c1 ∈ tr.grid ∨ ∃ c2 ∈ tr.grid,
        c1 = { c2 with data := { c2.data with selections := c2.data.selections + 1 } } := by
  unfold kpSelectTail
  split
  · intro c1 h1
    exact Or.inl h1
  · intro c1 h1
    simp only at h1
    exact mem_updCell _ _ _ c1 h1

lemma iterTail_events (ctx : Ctx) (rctrl cd : Nat) (uFall : ℚ) (states : List Nat)
    (ecell : Coord) (existing : Motion) (s : SolveSt) :
    (cd < ctx.minDur →
       (iterTail ctx rctrl cd uFall states ecell existing s).2.badApplied = true ∧
       (iterTail ctx rctrl cd uFall states ecell existing s).2.updatedEcell = true ∧
       (iterTail ctx rctrl cd uFall states ecell existing s).2.goodApplied = false) ∧
    (ctx.minDur ≤ cd →
       (iterTail ctx rctrl cd uFall states ecell existing s).2.brokeOut = false →
       (iterTail ctx rctrl cd uFall states ecell existing s).2.goodApplied = true ∧
       (iterTail ctx rctrl cd uFall states ecell existing s).2.updatedEcell = true ∧
       (iterTail ctx rctrl cd uFall states ecell existing s).2.badApplied = false) ∧
    ((iterTail ctx rctrl cd uFall states ecell existing s).2.brokeOut = true →
       (iterTail ctx rctrl cd uFall states ecell existing s).2.goodApplied = false ∧
       (iterTail ctx rctrl cd uFall states ecell existing s).2.updatedEcell = false ∧
       (iterTail ctx rctrl cd uFall states ecell existing s).1.solution.isSome = true) := by
  simp only [iterTail]
  split_ifs with hcd hint hsol
  · exact ⟨fun h => absurd hcd (by omega), fun _ hb => absurd hb (by simp),
      fun _ => ⟨rfl, rfl, hsol⟩⟩
  · exact ⟨fun h => absurd hcd (by omega), fun _ _ => ⟨rfl, rfl, rfl⟩,
      fun hb => absurd hb (by simp)⟩
  · exact ⟨fun h => absurd hcd (by omega), fun _ _ => ⟨rfl, rfl, rfl⟩,
      fun hb => absurd hb (by simp)⟩
  · exact ⟨fun _ => ⟨rfl, rfl, rfl⟩, fun hge _ => absurd hge hcd,
      fun hb => absurd hb (by simp)⟩

end EventLemmas

/-- C1 counterexample: a concrete iteration with `cd = 1 ≥ minDur = 1` in
which the split finds a solution; the iteration breaks out of the loop
without multiplying the source cell's score by `goodScoreFactor` and
without calling `grid.update` on it, contradicting the claim as stated. -/
theorem C1_counterexample_solution_break :
    ctxC.minDur ≤ oC.cd ∧
    (iterate ctxC oC sC).map
        (fun p => (p.2.goodApplied, p.2.badApplied, p.2.updatedEcell, p.2.brokeOut))
      = some (false, false, false, true) ∧
    (iterate ctxC oC sC).map (fun p => p.1.solution.isSome) = some true := by
  refine ⟨by decide, ?_, ?_⟩
  · with_unfolding_all rfl
  · with_unfolding_all rfl

/-- C1 amended: in every completed iteration, when `cd < minDur` the bad
factor is applied and `grid.update(ecell)` runs; when `cd ≥ minDur` the good
factor is applied and `grid.update(ecell)` runs unless a solution was found
during splitting, in which case the iteration breaks out before both. -/
theorem C1_score_update_amended :
    ∀ (ctx : Ctx) (o : Oracle) (s s1 : SolveSt) (ev : IterEvents),
      iterate ctx o s = some (s1, ev) →
      (o.cd < ctx.minDur →
         ev.badApplied = true ∧ ev.updatedEcell = true ∧ ev.goodApplied = false) ∧
      (ctx.minDur ≤ o.cd → ev.brokeOut = false →
         ev.goodApplied = true ∧ ev.updatedEcell = true ∧ ev.badApplied = false) ∧
      (ev.brokeOut = true →
         ev.goodApplied = false ∧ ev.updatedEcell = false ∧ s1.solution.isSome = true) := by
  intro ctx o s s1 ev h
  obtain ⟨m, k, s2, hlen, hsz, hinv, heq⟩ := iterate_decompose ctx o s s1 ev h
  have hev : ev = (iterTail ctx o.rctrl o.cd o.uFall o.states k m s2).2 :=
    congrArg Prod.snd heq
  have hs1 : s1 = (iterTail ctx o.rctrl o.cd o.uFall o.states k m s2).1 :=
    congrArg Prod.fst heq
  have he := iterTail_events ctx o.rctrl o.cd o.uFall o.states k m s2
  rw [hev, hs1]
  exact he

/-- Witness for C1: the amended theorem applied at a concrete iteration whose
propagation yields `cd = 0` valid steps. -/
theorem C1_amended_witness :
    (iterate ctxC oW sC).map
        (fun p => (p.2.badApplied, p.2.updatedEcell, p.2.goodApplied))
      = some (true, true, false) := by
  have hs : (iterate ctxC oW sC).isSome = true := by with_unfolding_all rfl
  rcases hit : iterate ctxC oW sC with _ | ⟨s1, ev⟩
  · rw [hit] at hs
    cases hs
  · have h := (C1_score_update_amended ctxC oW sC s1 ev hit).1 (by decide)
    simp [h.1, h.2.1, h.2.2]

/-- C6: when the chosen top cell's score is below ε, the numerical rescue
adds `1 + ln(iteration)` to every cell's score and `updateAll` is invoked;
with non-negative scores and iterations at least 1 the call leaves every
cell's score at least `1 + ln(its iteration)`. -/
theorem C6_numerical_rescue :
    ∀ (imp : CellData → ℚ) (lg : Nat → ℚ) (eps sbf u : ℚ) (hn : Nat → Nat → Nat)
      (tr : Tree) (c0 : Cell),
      chosenTop imp sbf u tr = some c0 →
      c0.data.score < eps →
      (∀ c ∈ tr.grid, 0 ≤ c.data.score) →
      (∀ c ∈ tr.grid, 1 ≤ c.data.iteration) →
      (∀ n, 1 ≤ n → 0 ≤ lg n) →
      (kpSelect imp lg eps sbf u hn tr).updateAllCalled = true ∧
      ∀ c1 ∈ (kpSelect imp lg eps sbf u hn tr).tr.grid,
        (∃ c ∈ tr.grid, c1.data.score = c.data.score + (1 + lg c.data.iteration) ∧
          c1.data.iteration = c.data.iteration) ∧
        1 + lg c1.data.iteration ≤ c1.data.score := by
  intro imp lg eps sbf u hn tr c0 htop hlow hnn hit hlg
  unfold kpSelect
  rw [htop]
  simp only [if_pos hlow]
  constructor
  · exact kpSelectTail_upd _ _ _ _
  · intro c1 h1
    have hdec : ∃ c ∈ tr.grid, c1.data.score = c.data.score + (1 + lg c.data.iteration) ∧
        c1.data.iteration = c.data.iteration := by
      rcases kpSelectTail_mem _ _ _ _ c1 h1 with h2 | ⟨c2, h2, rfl⟩
      · simp only [List.mem_map] at h2
        obtain ⟨c, hc, rfl⟩ := h2
        exact ⟨c, hc, rfl, rfl⟩
      · simp only [List.mem_map] at h2
        obtain ⟨c, hc, rfl⟩ := h2
        exact ⟨c, hc, rfl, rfl⟩
    refine ⟨hdec, ?_⟩
    obtain ⟨c, hc, hsc, hita⟩ := hdec
    rw [hsc, hita]
    have := hnn c hc
    linarith

/-- Witness for C6: the rescue theorem applied to a concrete grid of two
cells whose scores were forced to `1e-320`. -/
theorem C6_rescue_witness :
    (kpSelect impScore lgZ dblEps (4 / 5) 0 (fun _ _ => 0) trW6).updateAllCalled = true ∧
    ∀ c1 ∈ (kpSelect impScore lgZ dblEps (4 / 5) 0 (fun _ _ => 0) trW6).tr.grid,
      (∃ c ∈ trW6.grid, c1.data.score = c.data.score + (1 + lgZ c.data.iteration) ∧
        c1.data.iteration = c.data.iteration) ∧
      1 + lgZ c1.data.iteration ≤ c1.data.score :=
  C6_numerical_rescue impScore lgZ dblEps (4 / 5) 0 (fun _ _ => 0) trW6 c0W6
    (by with_unfolding_all rfl)
    (by with_unfolding_all exact of_decide_eq_true rfl)
    (by with_unfolding_all exact of_decide_eq_true rfl)
    (by with_unfolding_all exact of_decide_eq_true rfl)
    (fun n _ => le_refl 0)

/-- C7: the sum of motion counts over all cells equals `tree.size` and every
cell's coverage is the sum of its motions' steps: the invariant holds for
every seeded tree, is preserved by every `addMotion` call (which increments
`tree.size` by one), by every completed iteration, and therefore holds at
every iteration boundary of a run started from a successful seeding. -/
theorem C7_tree_invariant :
    (∀ (lg : Nat → ℚ) (proj : Nat → Coord) (starts : List Nat),
       treeInv (seed lg proj starts)) ∧
    (∀ (lg : Nat → ℚ) (proj : Nat → Coord) (tr : Tree) (m : Motion) (dist : ℚ),
       treeInv tr →
       treeInv (addMotion lg proj tr m dist).1 ∧
         (addMotion lg proj tr m dist).1.size = tr.size + 1) ∧
    (∀ (ctx : Ctx) (o : Oracle) (s s1 : SolveSt) (ev : IterEvents),
       treeInv s.tr → iterate ctx o s = some (s1, ev) → treeInv s1.tr) ∧
    (∀ (ctx : Ctx) (os : List Oracle) (lg : Nat → ℚ) (proj : Nat → Coord)
       (starts : List Nat) (nClose : Nat) (tr : Tree) (s1 : SolveSt),
       solveStart lg proj starts = .ok tr →
       runIters ctx os (initSolveSt tr nClose) = some s1 → treeInv s1.tr) := by
  refine ⟨fun lg proj starts => seed_inv lg proj starts, ?_, ?_, ?_⟩
  · intro lg proj tr m dist h
    exact ⟨addMotion_inv lg proj tr m dist h, addMotion_size lg proj tr m dist⟩
  · intro ctx o s s1 ev hv h
    exact iterate_inv ctx o s s1 ev hv h
  · intro ctx os lg proj starts nClose tr s1 hok hrun
    obtain ⟨rfl, -⟩ := solveStart_ok lg proj starts tr hok
    exact runIters_inv ctx os _ s1 (seed_inv lg proj starts) hrun

/-- Witness for C7: `addMotion` into the empty tree satisfies the invariant
and increments the size. -/
theorem C7_witness :
    treeInv (addMotion lgZ projId emptyTree (seedMotion 3) 1).1 ∧
      (addMotion lgZ projId emptyTree (seedMotion 3) 1).1.size = emptyTree.size + 1 :=
  C7_tree_invariant.2.1 lgZ projId emptyTree (seedMotion 3) 1
    ⟨rfl, fun c hc => absurd hc (List.not_mem_nil c)⟩

/-- C9: with no valid start state, `solve` fails before its main loop with
the logged error "There are no valid initial states!" (which carries the
claimed phrase); with a non-empty start set it proceeds with the seeded
tree, into which one motion per start state was inserted by `addMotion`
with `dist = 1.0`, a null control, no parent and zero steps. -/
theorem C9_seeding :
    (∀ (lg : Nat → ℚ) (proj : Nat → Coord),
       solveStart lg proj [] = .error "There are no valid initial states!") ∧
    ("There are no valid initial states!"
       = "There are " ++ "no valid initial states" ++ "!") ∧
    (∀ (lg : Nat → ℚ) (proj : Nat → Coord) (starts : List Nat), starts ≠ [] →
       solveStart lg proj starts = .ok (seed lg proj starts) ∧
       (seed lg proj starts).size = starts.length ∧
       ∀ c ∈ (seed lg proj starts).grid, ∀ m ∈ c.data.motions,
         m.parent = none ∧ m.control = none ∧ m.steps = 0) := by
  refine ⟨fun lg proj => rfl, rfl, ?_⟩
  intro lg proj starts hne
  refine ⟨?_, ?_, ?_⟩
  · have hlen := seed_grid_len lg proj starts hne
    simp only [solveStart]
    rw [if_neg (by omega)]
  · have h := seedFold_size lg proj starts emptyTree
    simpa [seed, emptyTree] using h
  · exact seedFold_motions lg proj starts emptyTree
      (fun c hc => absurd hc (List.not_mem_nil c))

/-- Witness for C9: seeding from the singleton start set `[3]`. -/
theorem C9_witness :
    solveStart lgZ projId [3] = .ok (seed lgZ projId [3]) ∧
      (seed lgZ projId [3]).size = 1 :=
  ⟨(C9_seeding.2.2 lgZ projId [3] (by simp)).1,
   (C9_seeding.2.2 lgZ projId [3] (by simp)).2.1⟩

/-- C10: the denominator `3 * grid.size()` of the integer division computing
`avgCov_two_thirds` is positive whenever the division is evaluated: a
successful seeding leaves at least one cell, each iteration can only grow
the grid, and the recorded denominator of every evaluation is positive. -/
theorem C10_avg_denominator :
    (∀ (lg : Nat → ℚ) (proj : Nat → Coord) (starts : List Nat) (tr : Tree),
       solveStart lg proj starts = .ok tr → 1 ≤ tr.grid.length) ∧
    (∀ (ctx : Ctx) (o : Oracle) (s s1 : SolveSt) (ev : IterEvents),
       1 ≤ s.tr.grid.length → iterate ctx o s = some (s1, ev) →
       1 ≤ s1.tr.grid.length ∧ s.tr.grid.length ≤ s1.tr.grid.length ∧
       ∀ d, ev.avgDenom = some d → 0 < d) ∧
    (∀ (ctx : Ctx) (os : List Oracle) (lg : Nat → ℚ) (proj : Nat → Coord)
       (starts : List Nat) (nClose : Nat) (tr : Tree) (s1 : SolveSt),
       solveStart lg proj starts = .ok tr →
       runIters ctx os (initSolveSt tr nClose) = some s1 → 1 ≤ s1.tr.grid.length) := by
  have hfirst : ∀ (lg : Nat → ℚ) (proj : Nat → Coord) (starts : List Nat) (tr : Tree),
      solveStart lg proj starts = .ok tr → 1 ≤ tr.grid.length := by
    intro lg proj starts tr hok
    obtain ⟨rfl, hne⟩ := solveStart_ok lg proj starts tr hok
    omega
  refine ⟨hfirst, ?_, ?_⟩
  · intro ctx o s s1 ev hlen h
    have hp := iterate_grid_props ctx o s s1 ev h
    refine ⟨by omega, hp.1, ?_⟩
    intro d hd
    have := hp.2 d hd
    omega
  · intro ctx os lg proj starts nClose tr s1 hok hrun
    have h1 := hfirst lg proj starts tr hok
    have h2 := runIters_grid_len ctx os _ s1 hrun
    simp only [initSolveSt] at h2
    omega

/-- Witness for C10: the seeded singleton run has a non-empty grid. -/
theorem C10_witness :
    1 ≤ (seed lgZ projId [5]).grid.length :=
  C10_avg_denominator.1 lgZ projId [5] (seed lgZ projId [5])
    (by with_unfolding_all rfl)

end KPIECE
